import Mathlib
/-!
Shallow embedding of the tricorder `messages` package
(go/tricorder/messages/api.go): the dense (go rpc) and sparse (JSON/REST)
message types, the Duration type with its conversions, and the dense/sparse
wire-form conversions described by the package specification.

Machine integers are modelled as `Int`/`Nat`; overflow of the 64-bit fields is
out of scope per the specification.  float64 values are only ever copied
verbatim and compared for equality in this package, never used in arithmetic,
so they are modelled by an abstract carrier with decidable equality.
-/
namespace Tricorder
/-- Carrier for go float64 fields.  The messages package only copies such
values verbatim and compares them, so an abstract carrier with decidable
equality suffices. -/

abbrev Float64 := Int
/-- Carrier for the opaque collaborator enumeration units.Unit. -/

abbrev UnitsUnit := Nat
/-- The kind tag of a metric value (collaborator enumeration types.Type).
The messages package distinguishes the kinds of the data model; duration and
time receive identical treatment (both live in the Duration slot densely and
in the string slot sparsely) and are modelled as a single kind. -/

inductive TypesType where
  | boolKind
  | intKind
  | uintKind
  | floatKind
  | stringKind
  | durationKind
  | distKind
deriving DecidableEq, Repr
/-! ## Decimal digit strings

Rendering and read-back of decimal numerals, used by the text form of
Duration (`[-]S.NNNNNNNNNs` and the sparse `SSS.NNNNNNNNN` string slot). -/
/-- The character for a single decimal digit. -/

def digitChar (n : Nat) : Char := Char.ofNat (48 + n)
/-- Decimal digit string worker, structurally recursive on a fuel bound so
that it reduces inside the kernel; any fuel at least the number itself
suffices. -/

def natToDigitsFuel : Nat → Nat → List Char
  | 0, n => [digitChar n]
  | fuel + 1, n =>
    if n < 10 then [digitChar n]
    else natToDigitsFuel fuel (n / 10) ++ [digitChar (n % 10)]
/-- Decimal digit string of a natural number, most significant digit first. -/

def natToDigits (n : Nat) : List Char := natToDigitsFuel n n
/-- Numeric value read back from a digit string by left fold. -/

def digitsVal (cs : List Char) : Nat :=
  cs.foldl (fun a c => a * 10 + (c.toNat - 48)) 0
/-- Left-pad a digit string with zeros to a given width. -/

def zeroPad (k : Nat) (cs : List Char) : List Char :=
  List.replicate (k - cs.length) '0' ++ cs
/-- Fixed-width decimal digit string (used for the nine nanosecond digits). -/

def natToPaddedDigits (k n : Nat) : List Char := zeroPad k (natToDigits n)
/-! ## Duration -/
/-- Duration represents a duration of time (api.go).  For negative durations,
both Seconds and Nanoseconds are negative.  The fields are int64/int32 in the
source; 64-bit overflow is out of scope per the specification, so both are
modelled as Int. -/

structure Duration where
  Seconds : Int
  Nanoseconds : Int
deriving DecidableEq, Repr
/-- Nanoseconds in one second. -/

def nanosPerSecond : Int := 1000000000
/-- Modelled from the spec: the private newDuration implementation behind
NewDuration is not part of this repository slice; per the specification it
computes seconds by truncation toward the span's sign and nanoseconds as the
signed remainder.  A go time.Duration is a signed 64-bit nanosecond count,
modelled as Int. -/

def NewDuration (d : Int) : Duration :=
  ⟨d.tdiv nanosPerSecond, d.tmod nanosPerSecond⟩
/-- Modelled from the spec: the private sinceEpoch implementation behind
SinceEpoch is not part of this repository slice; it returns the amount of
time since the unix epoch.  An absolute go time.Time is modelled as its
signed nanosecond offset from the epoch. -/

def SinceEpoch (t : Int) : Duration := NewDuration t
/-- Modelled from the spec: the private asGoDuration implementation behind
AsGoDuration is not part of this repository slice; it converts this duration
back to a go duration (nanosecond count), the inverse of NewDuration. -/

def Duration.AsGoDuration (d : Duration) : Int :=
  d.Seconds * nanosPerSecond + d.Nanoseconds
/-- Modelled from the spec: the private asGoTime implementation behind
AsGoTime is not part of this repository slice; it converts this duration to a
go time (nanosecond offset from the unix epoch), the inverse of SinceEpoch. -/

def Duration.AsGoTime (d : Duration) : Int :=
  d.Seconds * nanosPerSecond + d.Nanoseconds
/-- A duration is rendered with a leading minus sign when either field is
negative. -/

def Duration.isNegative (d : Duration) : Bool :=
  decide (d.Seconds < 0) || decide (d.Nanoseconds < 0)
/-- Sign agreement and nanosecond magnitude bound: the data-model invariant
of Duration (both fields non-negative or both non-positive, magnitude of the
nanosecond field below one second). -/

def Duration.validB (d : Duration) : Bool :=
  decide (d.Nanoseconds.natAbs < 1000000000) &&
    ((decide (0 ≤ d.Seconds) && decide (0 ≤ d.Nanoseconds)) ||
      (decide (d.Seconds ≤ 0) && decide (d.Nanoseconds ≤ 0)))
/-- Modelled from the spec: decimal-seconds text of a Duration, of the form
[-]S.NNNNNNNNN with the nanoseconds magnitude zero-padded to nine digits and
the sign carried on the whole string.  This body is shared by the sparse wire
encoding of duration/time values and by the String method (which appends a
final `s`). -/

def durationWireChars (d : Duration) : List Char :=
  (if d.isNegative then ['-'] else []) ++
    (natToDigits d.Seconds.natAbs ++ '.' :: natToPaddedDigits 9 d.Nanoseconds.natAbs)
/-- The sparse (JSON) string slot contents for a duration/time value. -/

def durationWireString (d : Duration) : String := ⟨durationWireChars d⟩
/-- Modelled from the spec: the private implementation behind Duration's
String method is not part of this repository slice; it renders
[-]S.NNNNNNNNNs, the wire body followed by a final `s`. -/

def Duration.String (d : Duration) : String := ⟨durationWireChars d ++ ['s']⟩
/-- Parse a non-negative decimal-seconds body S.NNNNNNNNN: digits, a dot,
then exactly nine digits. -/

def parseWireBody (cs : List Char) : Option Duration :=
  let intPart := cs.takeWhile (fun c => c != '.')
  match cs.dropWhile (fun c => c != '.') with
  | '.' :: frac =>
    if intPart.isEmpty then none
    else if !intPart.all Char.isDigit then none
    else if frac.length ≠ 9 then none
    else if !frac.all Char.isDigit then none
    else some ⟨(digitsVal intPart : Int), (digitsVal frac : Int)⟩
  | _ => none
/-- Parse a decimal-seconds string, with an optional leading minus sign
carried onto both fields. -/

def parseWireChars (cs : List Char) : Option Duration :=
  if cs.head? = some '-' then
    (parseWireBody cs.tail).map (fun d => ⟨-d.Seconds, -d.Nanoseconds⟩)
  else parseWireBody cs
/-- Modelled from the spec: sparse-to-dense reading of the duration/time
string slot, the inverse of `durationWireString`. -/

def parseWireDuration (s : String) : Option Duration := parseWireChars s.data
/-! ## Message structures (api.go)

Dense (go rpc) structs carry every field as a plain value, apart from the two
pointer fields RpcValue.DistributionValue and RpcMetric.Value, which are
modelled as Option (a go nil pointer is `none`).  Sparse (JSON) structs model
each pointer-typed optional field as Option. -/
/-- RpcRangeWithCount represents the number of values within a particular
range for go rpc.  Lower/Upper are plain float64 fields; the lowest range
never has a meaningful lower bound and the highest never has a meaningful
upper bound. -/

structure RpcRangeWithCount where
  Lower : Float64
  Upper : Float64
  Count : Nat
deriving DecidableEq, Repr
/-- RangeWithCount: the sparse form of one bucket; nil bounds mean unbounded
on that side. -/

structure RangeWithCount where
  Lower : Option Float64
  Upper : Option Float64
  Count : Nat
deriving DecidableEq, Repr
/-- RpcDistribution represents a distribution of values for go rpc. -/

structure RpcDistribution where
  Min : Float64
  Max : Float64
  Average : Float64
  Median : Float64
  Sum : Float64
  Count : Nat
  Ranges : List RpcRangeWithCount
deriving DecidableEq, Repr
/-- Distribution: the sparse form of a distribution of values. -/

structure Distribution where
  Min : Float64
  Max : Float64
  Average : Float64
  Median : Float64
  Sum : Float64
  Count : Nat
  Ranges : List RangeWithCount
deriving DecidableEq, Repr
/-- RpcValue represents the value of a metric for go rpc: a kind tag and one
plain payload slot per kind, of which only the one selected by Kind is
meaningful.  DistributionValue is a nullable pointer. -/

structure RpcValue where
  Kind : TypesType
  BoolValue : Bool
  IntValue : Int
  UintValue : Nat
  FloatValue : Float64
  StringValue : String
  DurationValue : Duration
  DistributionValue : Option RpcDistribution
deriving DecidableEq, Repr
/-- Value: the sparse form of a metric value; every payload slot is a
nullable pointer and there is no duration-typed slot (duration/time values
reuse StringValue). -/

structure Value where
  Kind : TypesType
  BoolValue : Option Bool
  IntValue : Option Int
  UintValue : Option Nat
  FloatValue : Option Float64
  StringValue : Option String
  DistributionValue : Option Distribution
deriving DecidableEq, Repr
/-- RpcMetric represents a single metric for go rpc; Value is a nullable
pointer. -/

structure RpcMetric where
  Path : String
  Description : String
  Unit : UnitsUnit
  Value : Option RpcValue
deriving DecidableEq, Repr
/-- Metric: the sparse form of a single metric. -/

structure Metric where
  Path : String
  Description : String
  Unit : UnitsUnit
  Value : Option Value
deriving DecidableEq, Repr
/-- RpcMetricList represents a list of rpc metrics. -/

abbrev RpcMetricList := List RpcMetric
/-- MetricList represents a list of metrics. -/

abbrev MetricList := List Metric
/-! ## Errors and lookup -/
/-- The recoverable error kinds of the package: the distinguished not-found
marker (ErrMetricNotFound in api.go, a single exported error value), and the
malformed-distribution and kind-mismatch conversion failures. -/

inductive Err where
  | metricNotFound
  | malformedDistribution
  | kindMismatch
deriving DecidableEq, Repr
/-- The single distinguished error value returned when no metric with the
given path exists (api.go). -/

def ErrMetricNotFound : Err := Err.metricNotFound
/-- Modelled from the spec: the MetricServer.GetMetric RPC lookup is not part
of this repository slice; looking up a path absent from the snapshot returns
the distinguished ErrMetricNotFound value. -/

def RpcMetricList.GetMetric (l : RpcMetricList) (path : String) :
    Except Err RpcMetric :=
  match l.find? (fun m => m.Path == path) with
  | some m => .ok m
  | none => .error ErrMetricNotFound
/-- Modelled from the spec: the REST lookup is not part of this repository
slice; it fails with the same distinguished ErrMetricNotFound value. -/

def MetricList.GetMetric (l : MetricList) (path : String) :
    Except Err Metric :=
  match l.find? (fun m => m.Path == path) with
  | some m => .ok m
  | none => .error ErrMetricNotFound
/-! ## Sparse (JSON) field emission

The JSON encoding of the sparse structs is determined by the struct tags in
api.go together with go encoding/json semantics: a field tagged `omitempty`
is omitted when its value is the zero value of its type (nil for pointers,
an empty slice for slices), and is emitted otherwise — in particular a
non-nil pointer to a zero value is emitted; a field without `omitempty` is
always emitted.  `emittedFields` lists the names of the fields emitted for
one struct value, in declaration order. -/
def RangeWithCount.emittedFields (r : RangeWithCount) : List String :=
  (if r.Lower.isSome then ["lower"] else []) ++
    (if r.Upper.isSome then ["upper"] else []) ++ ["count"]
def Distribution.emittedFields (d : Distribution) : List String :=
  ["min", "max", "average", "median", "sum", "count"] ++
    (if d.Ranges.isEmpty then [] else ["ranges"])
def Value.emittedFields (v : Value) : List String :=
  ["kind"] ++
    (if v.BoolValue.isSome then ["boolValue"] else []) ++
    (if v.IntValue.isSome then ["intValue"] else []) ++
    (if v.UintValue.isSome then ["uintValue"] else []) ++
    (if v.FloatValue.isSome then ["floatValue"] else []) ++
    (if v.StringValue.isSome then ["stringValue"] else []) ++
    (if v.DistributionValue.isSome then ["distributionValue"] else [])
def Metric.emittedFields (_ : Metric) : List String :=
  ["path", "description", "unit", "value"]
/-! ## Dense/sparse wire-form conversions

Modelled from the spec: the toWireForm/fromWireForm conversions between the
dense and sparse encodings are not part of this repository slice; they are
the pure mapping functions of the specification.  For buckets, the dense to
sparse direction omits `lower` on the first bucket and `upper` on the last;
the sparse to dense direction reconstructs (as the zero value) a missing
bound only when the bucket position implies it is meaningless, and fails with
the malformed-distribution error on a missing interior bound.  For values,
the payload selected by Kind is the only field encoded as present sparsely;
duration/time payloads are rendered into the sparse string slot and parsed
back out of it; an absent required payload is the kind-mismatch error. -/
/-- Modelled from the spec: dense to sparse form of one bucket, at position
i of n buckets. -/

def RpcRangeWithCount.toWireForm (n i : Nat) (r : RpcRangeWithCount) :
    RangeWithCount :=
  { Lower := if i = 0 then none else some r.Lower
    Upper := if i + 1 = n then none else some r.Upper
    Count := r.Count }
/-- Modelled from the spec: sparse to dense form of one bucket, at position
i of n buckets. -/

def RangeWithCount.fromWireForm (n i : Nat) (r : RangeWithCount) :
    Except Err RpcRangeWithCount :=
  match r.Lower, r.Upper with
  | some lo, some up => .ok ⟨lo, up, r.Count⟩
  | none, some up =>
    if i = 0 then .ok ⟨0, up, r.Count⟩ else .error .malformedDistribution
  | some lo, none =>
    if i + 1 = n then .ok ⟨lo, 0, r.Count⟩ else .error .malformedDistribution
  | none, none =>
    if i = 0 ∧ i + 1 = n then .ok ⟨0, 0, r.Count⟩
    else .error .malformedDistribution
def rangesToWireAux (n : Nat) : Nat → List RpcRangeWithCount → List RangeWithCount
  | _, [] => []
  | i, r :: rest => r.toWireForm n i :: rangesToWireAux n (i + 1) rest
/-- Modelled from the spec: dense to sparse form of a bucket sequence. -/

def rangesToWireForm (rs : List RpcRangeWithCount) : List RangeWithCount :=
  rangesToWireAux rs.length 0 rs
def rangesFromWireAux (n : Nat) :
    Nat → List RangeWithCount → Except Err (List RpcRangeWithCount)
  | _, [] => .ok []
  | i, r :: rest => do
    let a ← r.fromWireForm n i
    let as ← rangesFromWireAux n (i + 1) rest
    .ok (a :: as)
/-- Modelled from the spec: sparse to dense form of a bucket sequence. -/

def rangesFromWireForm (rs : List RangeWithCount) :
    Except Err (List RpcRangeWithCount) :=
  rangesFromWireAux rs.length 0 rs
/-- Modelled from the spec: dense to sparse form of a distribution; the
aggregate statistics copy verbatim. -/

def RpcDistribution.toWireForm (d : RpcDistribution) : Distribution :=
  ⟨d.Min, d.Max, d.Average, d.Median, d.Sum, d.Count, rangesToWireForm d.Ranges⟩
/-- Modelled from the spec: sparse to dense form of a distribution. -/

def Distribution.fromWireForm (d : Distribution) :
    Except Err RpcDistribution := do
  let rs ← rangesFromWireForm d.Ranges
  .ok ⟨d.Min, d.Max, d.Average, d.Median, d.Sum, d.Count, rs⟩
/-- Modelled from the spec: dense to sparse form of a value; only the payload
selected by Kind is present, and a duration/time payload is rendered into the
string slot. -/

def RpcValue.toWireForm (v : RpcValue) : Value :=
  { Kind := v.Kind
    BoolValue := if v.Kind = .boolKind then some v.BoolValue else none
    IntValue := if v.Kind = .intKind then some v.IntValue else none
    UintValue := if v.Kind = .uintKind then some v.UintValue else none
    FloatValue := if v.Kind = .floatKind then some v.FloatValue else none
    StringValue :=
      if v.Kind = .stringKind then some v.StringValue
      else if v.Kind = .durationKind then some (durationWireString v.DurationValue)
      else none
    DistributionValue :=
      if v.Kind = .distKind then v.DistributionValue.map RpcDistribution.toWireForm
      else none }
/-- Modelled from the spec: sparse to dense form of a value; the payload
required by Kind must be present (else the kind-mismatch error), every
non-selected dense slot is left at its zero value, and a duration/time
payload is parsed back out of the string slot. -/

def Value.fromWireForm (v : Value) : Except Err RpcValue :=
  match v.Kind with
  | .boolKind =>
    match v.BoolValue with
    | some b => .ok ⟨.boolKind, b, 0, 0, 0, "", ⟨0, 0⟩, none⟩
    | none => .error .kindMismatch
  | .intKind =>
    match v.IntValue with
    | some i => .ok ⟨.intKind, false, i, 0, 0, "", ⟨0, 0⟩, none⟩
    | none => .error .kindMismatch
  | .uintKind =>
    match v.UintValue with
    | some u => .ok ⟨.uintKind, false, 0, u, 0, "", ⟨0, 0⟩, none⟩
    | none => .error .kindMismatch
  | .floatKind =>
    match v.FloatValue with
    | some f => .ok ⟨.floatKind, false, 0, 0, f, "", ⟨0, 0⟩, none⟩
    | none => .error .kindMismatch
  | .stringKind =>
    match v.StringValue with
    | some s => .ok ⟨.stringKind, false, 0, 0, 0, s, ⟨0, 0⟩, none⟩
    | none => .error .kindMismatch
  | .durationKind =>
    match v.StringValue with
    | some s =>
      match parseWireDuration s with
      | some d => .ok ⟨.durationKind, false, 0, 0, 0, "", d, none⟩
      | none => .error .kindMismatch
    | none => .error .kindMismatch
  | .distKind =>
    match v.DistributionValue with
    | some dw => dw.fromWireForm.map (⟨.distKind, false, 0, 0, 0, "", ⟨0, 0⟩, some ·⟩)
    | none => .error .kindMismatch
/-- Modelled from the spec: dense to sparse form of a metric; path,
description and unit copy verbatim, a nil value pointer stays nil. -/

def RpcMetric.toWireForm (m : RpcMetric) : Metric :=
  ⟨m.Path, m.Description, m.Unit, m.Value.map RpcValue.toWireForm⟩
/-- Modelled from the spec: sparse to dense form of a metric. -/

def Metric.fromWireForm (m : Metric) : Except Err RpcMetric :=
  match m.Value with
  | none => .ok ⟨m.Path, m.Description, m.Unit, none⟩
  | some v => v.fromWireForm.map (⟨m.Path, m.Description, m.Unit, some ·⟩)
/-! ## Validity (the data-model invariants of the dense encoding)

A valid dense distribution satisfies the bucket-chain and count-sum laws and
carries its two meaningless bounds (the first bucket's Lower, the last
bucket's Upper) at the zero value, matching the dense-encoding policy that
non-meaningful slots are left at their zero value.  A valid dense value
leaves every non-selected payload slot at its zero value and carries a
sign-agreeing, sub-second-normalised duration in the duration slot.  A valid
dense metric carries a non-nil valid value. -/
def boundsChainedB : List RpcRangeWithCount → Bool
  | a :: b :: rest => decide (a.Upper = b.Lower) && boundsChainedB (b :: rest)
  | _ => true
def countSum (rs : List RpcRangeWithCount) : Nat :=
  (rs.map RpcRangeWithCount.Count).sum
abbrev RpcDistribution.valid (d : RpcDistribution) : Prop :=
  boundsChainedB d.Ranges = true ∧
    countSum d.Ranges = d.Count ∧
    d.Ranges.head?.all (fun r => decide (r.Lower = 0)) = true ∧
    d.Ranges.getLast?.all (fun r => decide (r.Upper = 0)) = true
abbrev RpcValue.valid (v : RpcValue) : Prop :=
  (v.Kind = .boolKind ∨ v.BoolValue = false) ∧
    (v.Kind = .intKind ∨ v.IntValue = 0) ∧
    (v.Kind = .uintKind ∨ v.UintValue = 0) ∧
    (v.Kind = .floatKind ∨ v.FloatValue = 0) ∧
    (v.Kind = .stringKind ∨ v.StringValue = "") ∧
    (v.Kind = .durationKind ∨ v.DurationValue = ⟨0, 0⟩) ∧
    (v.Kind = .durationKind → v.DurationValue.validB = true) ∧
    (match v.DistributionValue with
      | none => v.Kind ≠ .distKind
      | some d => v.Kind = .distKind ∧ d.valid)
abbrev RpcMetric.valid (m : RpcMetric) : Prop :=
  match m.Value with
  | some v => v.valid
  | none => False
/-! ## Lemmas -/
theorem natToDigitsFuel_extra (fuel1 fuel2 n : Nat) (h1 : n ≤ fuel1) (h2 : n ≤ fuel2) :
    natToDigitsFuel fuel1 n = natToDigitsFuel fuel2 n := by
  induction n using Nat.strong_induction_on generalizing fuel1 fuel2 with
  | _ n ih =>
    match fuel1, fuel2 with
    | 0, 0 => rfl
    | 0, f2 + 1 =>
      have hn : n = 0 := by omega
      subst hn
      rfl
    | f1 + 1, 0 =>
      have hn : n = 0 := by omega
      subst hn
      rfl
    | f1 + 1, f2 + 1 =>
      simp only [natToDigitsFuel]
      split
      · rfl
      · next h =>
        have hlt := Nat.div_lt_self (show 0 < n by omega) (show 1 < 10 by omega)
        rw [ih (n / 10) hlt f1 f2 (by omega) (by omega)]
/-- The defining recursion of `natToDigits`. -/

theorem natToDigits_eq (n : Nat) :
    natToDigits n = if n < 10 then [digitChar n]
      else natToDigits (n / 10) ++ [digitChar (n % 10)] := by
  rw [natToDigits]
  match hf : n with
  | 0 => rfl
  | m + 1 =>
    simp only [natToDigitsFuel]
    split
    · rfl
    · next h =>
      rw [natToDigits]
      have hlt := Nat.div_lt_self (show 0 < m + 1 by omega) (show 1 < 10 by omega)
      rw [natToDigitsFuel_extra m ((m + 1) / 10) ((m + 1) / 10) (by omega) (by omega)]
theorem digitChar_isDigit {n : Nat} (h : n < 10) : (digitChar n).isDigit = true := by
  interval_cases n <;> decide
theorem digitChar_toNat {n : Nat} (h : n < 10) : (digitChar n).toNat = 48 + n := by
  interval_cases n <;> decide
theorem natToDigits_ne_nil (n : Nat) : natToDigits n ≠ [] := by
  rw [natToDigits_eq]
  split <;> simp
theorem natToDigits_all_isDigit (n : Nat) : ∀ c ∈ natToDigits n, c.isDigit = true := by
  induction n using Nat.strong_induction_on with
  | _ n ih =>
    rw [natToDigits_eq]
    split
    · intro c hc
      simp only [List.mem_singleton] at hc
      subst hc
      exact digitChar_isDigit (by omega)
    · intro c hc
      rw [List.mem_append] at hc
      rcases hc with hc | hc
      · exact ih (n / 10) (Nat.div_lt_self (by omega) (by omega)) c hc
      · simp only [List.mem_singleton] at hc
        subst hc
        exact digitChar_isDigit (Nat.mod_lt n (by omega))
theorem foldl_natToDigits (a n : Nat) :
    (natToDigits n).foldl (fun a c => a * 10 + (c.toNat - 48)) a
      = a * 10 ^ (natToDigits n).length + n := by
  induction n using Nat.strong_induction_on generalizing a with
  | _ n ih =>
    rw [natToDigits_eq]
    split
    · next h =>
      simp only [List.foldl, List.length_singleton, pow_one, digitChar_toNat h]
      omega
    · next h =>
      rw [List.foldl_append, ih (n / 10) (Nat.div_lt_self (by omega) (by omega)) a]
      simp only [List.foldl, List.length_append, List.length_singleton,
        digitChar_toNat (Nat.mod_lt n (by omega))]
      have hdm : 10 * (n / 10) + n % 10 = n := Nat.div_add_mod n 10
      calc (a * 10 ^ (natToDigits (n / 10)).length + n / 10) * 10 + (48 + n % 10 - 48)
          = a * 10 ^ ((natToDigits (n / 10)).length + 1) + (10 * (n / 10) + n % 10) := by
            ring_nf
            omega
        _ = a * 10 ^ ((natToDigits (n / 10)).length + 1) + n := by rw [hdm]
theorem digitsVal_natToDigits (n : Nat) : digitsVal (natToDigits n) = n := by
  simp [digitsVal, foldl_natToDigits]
theorem natToDigits_length_le {n k : Nat} (h : n < 10 ^ k) (hk : 0 < k) :
    (natToDigits n).length ≤ k := by
  induction k generalizing n with
  | zero => omega
  | succ k ih =>
    rw [natToDigits_eq]
    split
    · simp only [List.length_singleton]
      omega
    · next h2 =>
      have hk2 : 0 < k := by
        rcases Nat.eq_zero_or_pos k with hz | hp
        · subst hz
          have hpow : (10 : Nat) ^ (0 + 1) = 10 := by norm_num
          rw [hpow] at h
          omega
        · exact hp
      have hdiv : n / 10 < 10 ^ k := by
        rw [Nat.div_lt_iff_lt_mul (by omega)]
        calc n < 10 ^ (k + 1) := h
          _ = 10 ^ k * 10 := by rw [pow_succ]
      have := ih hdiv hk2
      simp only [List.length_append, List.length_singleton]
      omega
theorem zeroPad_length {k : Nat} {cs : List Char} (h : cs.length ≤ k) :
    (zeroPad k cs).length = k := by
  simp only [zeroPad, List.length_append, List.length_replicate]
  omega
theorem foldl_replicate_zero (m : Nat) :
    (List.replicate m '0').foldl (fun a c => a * 10 + (c.toNat - 48)) 0 = 0 := by
  induction m with
  | zero => rfl
  | succ m ih =>
    rw [List.replicate_succ]
    simpa using ih
theorem digitsVal_zeroPad (k : Nat) (cs : List Char) :
    digitsVal (zeroPad k cs) = digitsVal cs := by
  simp [digitsVal, zeroPad, List.foldl_append, foldl_replicate_zero]
theorem natToPaddedDigits_length {k n : Nat} (h : n < 10 ^ k) (hk : 0 < k) :
    (natToPaddedDigits k n).length = k :=
  zeroPad_length (natToDigits_length_le h hk)
theorem digitsVal_natToPaddedDigits (k n : Nat) :
    digitsVal (natToPaddedDigits k n) = n := by
  rw [natToPaddedDigits, digitsVal_zeroPad, digitsVal_natToDigits]
theorem natToPaddedDigits_all_isDigit (k n : Nat) :
    ∀ c ∈ natToPaddedDigits k n, c.isDigit = true := by
  intro c hc
  simp only [natToPaddedDigits, zeroPad, List.mem_append, List.mem_replicate] at hc
  rcases hc with ⟨-, hc⟩ | hc
  · subst hc
    decide
  · exact natToDigits_all_isDigit n c hc
theorem isDigit_ne {c e : Char} (h : c.isDigit = true) (he : e.isDigit = false) :
    c ≠ e := by
  intro hce
  subst hce
  rw [h] at he
  exact Bool.noConfusion he
theorem takeWhile_append_stop (p : Char → Bool) (xs ys : List Char) (y : Char)
    (hall : ∀ x ∈ xs, p x = true) (hy : p y = false) :
    (xs ++ y :: ys).takeWhile p = xs ∧ (xs ++ y :: ys).dropWhile p = y :: ys := by
  induction xs with
  | nil => simp [List.takeWhile_cons, List.dropWhile_cons, hy]
  | cons a xs ih =>
    have ha := hall a (by simp)
    have := ih (fun x hx => hall x (by simp [hx]))
    simp only [List.cons_append, List.takeWhile_cons, List.dropWhile_cons, ha,
      if_true]
    exact ⟨by rw [this.1], this.2⟩
theorem isDigit_ne_dot {c : Char} (h : c.isDigit = true) : (c != '.') = true :=
  bne_iff_ne.mpr (isDigit_ne h (by decide))
theorem parseWireBody_render {s n9 : Nat} (h : n9 < 1000000000) :
    parseWireBody (natToDigits s ++ '.' :: natToPaddedDigits 9 n9)
      = some ⟨(s : Int), (n9 : Int)⟩ := by
  have hsplit := takeWhile_append_stop (fun c => c != '.')
    (natToDigits s) (natToPaddedDigits 9 n9) '.'
    (fun x hx => isDigit_ne_dot (natToDigits_all_isDigit s x hx)) (by decide)
  rw [parseWireBody]
  simp only [hsplit.1, hsplit.2]
  have hne : (natToDigits s).isEmpty = false := by
    rcases hn : natToDigits s with _ | ⟨c, cs⟩
    · exact absurd hn (natToDigits_ne_nil s)
    · rfl
  have hall : (natToDigits s).all Char.isDigit = true :=
    List.all_eq_true.mpr (natToDigits_all_isDigit s)
  have hlen : (natToPaddedDigits 9 n9).length = 9 :=
    natToPaddedDigits_length (by norm_num; omega) (by norm_num)
  have hallf : (natToPaddedDigits 9 n9).all Char.isDigit = true :=
    List.all_eq_true.mpr (natToPaddedDigits_all_isDigit 9 n9)
  simp only [hne, hall, hlen, hallf, digitsVal_natToDigits, digitsVal_natToPaddedDigits]
  simp
theorem head_durationBody_isDigit (sec : Nat) (frac : List Char) :
    ∀ c, (natToDigits sec ++ '.' :: frac).head? = some c → c.isDigit = true := by
  intro c hc
  rcases hn : natToDigits sec with _ | ⟨c0, cs⟩
  · exact absurd hn (natToDigits_ne_nil sec)
  · rw [hn] at hc
    simp only [List.cons_append, List.head?_cons, Option.some.injEq] at hc
    exact hc ▸ natToDigits_all_isDigit sec c0 (by rw [hn]; exact List.mem_cons_self c0 cs)
theorem parse_render {d : Duration} (h : d.validB = true) :
    parseWireDuration (durationWireString d) = some d := by
  simp only [Duration.validB, Bool.and_eq_true, Bool.or_eq_true, decide_eq_true_eq] at h
  obtain ⟨hmag, hsign⟩ := h
  rw [parseWireDuration, durationWireString]
  show parseWireChars (durationWireChars d) = some d
  rw [durationWireChars]
  by_cases hneg : d.isNegative = true
  · rw [if_pos hneg]
    simp only [Duration.isNegative, Bool.or_eq_true, decide_eq_true_eq] at hneg
    have hs : d.Seconds ≤ 0 ∧ d.Nanoseconds ≤ 0 := by
      rcases hsign with ⟨h1, h2⟩ | h3
      · constructor <;> omega
      · exact h3
    rw [parseWireChars]
    simp only [List.cons_append, List.nil_append, List.head?_cons, List.tail_cons, if_true]
    rw [parseWireBody_render hmag]
    simp only [Option.map_some']
    have h1 : -((d.Seconds.natAbs : Int)) = d.Seconds := by omega
    have h2 : -((d.Nanoseconds.natAbs : Int)) = d.Nanoseconds := by omega
    rw [h1, h2]
  · rw [if_neg hneg]
    simp only [Duration.isNegative, Bool.or_eq_true, decide_eq_true_eq, not_or] at hneg
    have hs : 0 ≤ d.Seconds ∧ 0 ≤ d.Nanoseconds := by constructor <;> omega
    rw [parseWireChars]
    simp only [List.nil_append]
    rw [if_neg]
    · rw [parseWireBody_render hmag]
      have h1 : ((d.Seconds.natAbs : Int)) = d.Seconds := by omega
      have h2 : ((d.Nanoseconds.natAbs : Int)) = d.Nanoseconds := by omega
      rw [h1, h2]
    · intro hcontra
      rcases hh : (natToDigits d.Seconds.natAbs ++ '.' :: natToPaddedDigits 9 d.Nanoseconds.natAbs).head? with _ | c
      · rw [hh] at hcontra
        exact Option.noConfusion hcontra
      · rw [hh] at hcontra
        have hd := head_durationBody_isDigit d.Seconds.natAbs
          (natToPaddedDigits 9 d.Nanoseconds.natAbs) c hh
        have : c = '-' := Option.some.inj hcontra
        subst this
        exact absurd hd (by decide)
theorem neg_tmod_dividend (a b : Int) : (-a).tmod b = -(a.tmod b) := by
  rw [Int.tmod_def, Int.tmod_def, Int.neg_tdiv]
  ring

theorem tdiv_nonpos_of_nonpos {a b : Int} (ha : a ≤ 0) (hb : 0 ≤ b) :
    a.tdiv b ≤ 0 := by
  have h1 : 0 ≤ (-a).tdiv b := Int.tdiv_nonneg (by omega) hb
  rw [Int.neg_tdiv] at h1
  omega

theorem tmod_nonpos_of_nonpos {a : Int} (b : Int) (ha : a ≤ 0) : a.tmod b ≤ 0 := by
  have h1 : 0 ≤ (-a).tmod b := Int.tmod_nonneg b (by omega)
  rw [neg_tmod_dividend] at h1
  omega

theorem newDuration_signAgree (s : Int) :
    (0 ≤ (NewDuration s).Seconds ∧ 0 ≤ (NewDuration s).Nanoseconds) ∨
      ((NewDuration s).Seconds ≤ 0 ∧ (NewDuration s).Nanoseconds ≤ 0) := by
  rcases le_or_lt 0 s with hs | hs
  · exact Or.inl ⟨Int.tdiv_nonneg hs (by decide), Int.tmod_nonneg _ hs⟩
  · exact Or.inr ⟨tdiv_nonpos_of_nonpos (by omega) (by decide),
      tmod_nonpos_of_nonpos _ (by omega)⟩

theorem rangesToWireAux_length (n i : Nat) (rs : List RpcRangeWithCount) :
    (rangesToWireAux n i rs).length = rs.length := by
  induction rs generalizing i with
  | nil => rfl
  | cons r rest ih => simp [rangesToWireAux, ih]

theorem rangesAux_round (n : Nat) (rs : List RpcRangeWithCount) (i : Nat)
    (hn : i + rs.length = n)
    (h0 : ∀ r, i = 0 → rs.head? = some r → r.Lower = 0)
    (hl : ∀ r, rs.getLast? = some r → r.Upper = 0) :
    rangesFromWireAux n i (rangesToWireAux n i rs) = .ok rs := by
  induction rs generalizing i with
  | nil => rfl
  | cons r rest ih =>
    obtain ⟨rl, ru, rc⟩ := r
    simp only [rangesToWireAux, rangesFromWireAux]
    have hone : RangeWithCount.fromWireForm n i
        (RpcRangeWithCount.toWireForm n i ⟨rl, ru, rc⟩) = .ok ⟨rl, ru, rc⟩ := by
      by_cases h0c : i = 0 <;> by_cases hlc : i + 1 = n
      · subst h0c
        have hL : rl = 0 := h0 ⟨rl, ru, rc⟩ rfl rfl
        have hrest : rest = [] := by
          simp only [List.length_cons] at hn
          exact List.length_eq_zero.mp (by omega)
        have hU : ru = 0 := hl ⟨rl, ru, rc⟩ (by rw [hrest]; rfl)
        subst hL hU
        have hn2 : n = 1 := by omega
        subst hn2
        rfl
      · subst h0c
        have hL : rl = 0 := h0 ⟨rl, ru, rc⟩ rfl rfl
        subst hL
        rw [RpcRangeWithCount.toWireForm, RangeWithCount.fromWireForm]
        simp only [if_pos rfl, if_neg hlc]
        simp
      · have hrest : rest = [] := by
          simp only [List.length_cons] at hn
          exact List.length_eq_zero.mp (by omega)
        have hU : ru = 0 := hl ⟨rl, ru, rc⟩ (by rw [hrest]; rfl)
        subst hU
        rw [RpcRangeWithCount.toWireForm, RangeWithCount.fromWireForm]
        simp only [if_neg h0c, if_pos hlc]
      · rw [RpcRangeWithCount.toWireForm, RangeWithCount.fromWireForm]
        simp only [if_neg h0c, if_neg hlc]
    rw [hone]
    have hrec : rangesFromWireAux n (i + 1) (rangesToWireAux n (i + 1) rest) = .ok rest := by
      apply ih
      · simp only [List.length_cons] at hn
        omega
      · intro r2 hi2
        omega
      · intro r2 h2
        apply hl r2
        rcases rest with _ | ⟨b, brest⟩
        · exact absurd h2 (by simp)
        · rw [List.getLast?_cons_cons]
          exact h2
    rw [hrec]
    rfl

theorem ranges_round (rs : List RpcRangeWithCount)
    (h0 : ∀ r, rs.head? = some r → r.Lower = 0)
    (hl : ∀ r, rs.getLast? = some r → r.Upper = 0) :
    rangesFromWireForm (rangesToWireForm rs) = .ok rs := by
  rw [rangesFromWireForm, rangesToWireForm, rangesToWireAux_length]
  exact rangesAux_round rs.length rs 0 (by omega) (fun r _ h => h0 r h) hl

theorem dist_round (d : RpcDistribution) (h : d.valid) :
    d.toWireForm.fromWireForm = .ok d := by
  obtain ⟨-, -, hhead, hlast⟩ := h
  rw [RpcDistribution.toWireForm, Distribution.fromWireForm]
  have hr : rangesFromWireForm (rangesToWireForm d.Ranges) = .ok d.Ranges := by
    apply ranges_round
    · intro r hrh
      rw [hrh] at hhead
      simpa using hhead
    · intro r hrl
      rw [hrl] at hlast
      simpa using hlast
  rw [hr]
  rfl

theorem value_round (v : RpcValue) (h : v.valid) :
    v.toWireForm.fromWireForm = .ok v := by
  obtain ⟨k, bv, iv, uv, fv, sv, dv, distv⟩ := v
  rcases distv with _ | D <;> cases k <;> simp only [RpcValue.valid] at h <;>
    simp only [reduceCtorEq, false_or, true_or, false_and, and_true, true_and,
      false_implies, forall_const, ne_eq, not_false_eq_true, not_true_eq_false,
      true_implies, true_and, and_false] at h
  case none.boolKind =>
    obtain ⟨hi, hu, hf, hs, hd⟩ := h
    subst hi hu hf hs hd
    rfl
  case none.intKind =>
    obtain ⟨hb, hu, hf, hs, hd⟩ := h
    subst hb hu hf hs hd
    rfl
  case none.uintKind =>
    obtain ⟨hb, hi, hf, hs, hd⟩ := h
    subst hb hi hf hs hd
    rfl
  case none.floatKind =>
    obtain ⟨hb, hi, hu, hs, hd⟩ := h
    subst hb hi hu hs hd
    rfl
  case none.stringKind =>
    obtain ⟨hb, hi, hu, hf, hd⟩ := h
    subst hb hi hu hf hd
    rfl
  case none.durationKind =>
    obtain ⟨hb, hi, hu, hf, hs, hdur⟩ := h
    subst hb hi hu hf hs
    simp only [RpcValue.toWireForm, Value.fromWireForm, reduceCtorEq, if_false, if_true,
      reduceIte]
    rw [parse_render hdur]
  case some.distKind =>
    obtain ⟨hb, hi, hu, hf, hs, hd, hdist⟩ := h
    subst hb hi hu hf hs hd
    simp only [RpcValue.toWireForm, Value.fromWireForm, reduceCtorEq, if_false, if_true,
      reduceIte, Option.map_some']
    rw [dist_round D hdist]
    rfl

theorem metric_round (m : RpcMetric) (h : m.valid) :
    m.toWireForm.fromWireForm = .ok m := by
  obtain ⟨p, desc, u, val⟩ := m
  rcases val with _ | v
  · simp [RpcMetric.valid] at h
  · rw [RpcMetric.toWireForm]
    simp only [Option.map_some']
    rw [Metric.fromWireForm]
    simp only
    rw [value_round v h]
    rfl

theorem newDuration_total (x : Int) :
    (NewDuration x).Seconds * nanosPerSecond + (NewDuration x).Nanoseconds = x := by
  rw [NewDuration]
  show x.tdiv nanosPerSecond * nanosPerSecond + x.tmod nanosPerSecond = x
  rw [Int.mul_comm]
  exact Int.tdiv_add_tmod x nanosPerSecond

theorem durationWireChars_ne_nil (d : Duration) : durationWireChars d ≠ [] := by
  rw [durationWireChars]
  rcases hn : natToDigits d.Seconds.natAbs with _ | ⟨c, cs⟩
  · exact absurd hn (natToDigits_ne_nil _)
  · by_cases hb : d.isNegative = true <;> simp [hb, hn]

theorem durationWireChars_head (d : Duration) :
    ((durationWireChars d).head? = some '-') ↔ d.isNegative = true := by
  rw [durationWireChars]
  by_cases hn : d.isNegative = true
  · rw [hn]
    simp
  · rw [if_neg hn]
    simp only [List.nil_append]
    constructor
    · intro hc
      rcases hh : (natToDigits d.Seconds.natAbs ++
          '.' :: natToPaddedDigits 9 d.Nanoseconds.natAbs).head? with _ | c
      · rw [hh] at hc
        exact absurd hc (by simp)
      · rw [hh] at hc
        have hd := head_durationBody_isDigit _ _ c hh
        have hcd : c = '-' := Option.some.inj hc
        subst hcd
        exact absurd hd (by decide)
    · intro hc
      exact absurd hc hn

theorem string_head (d : Duration) :
    (Duration.String d).data.head? = (durationWireChars d).head? := by
  show (durationWireChars d ++ ['s']).head? = _
  rcases hh : durationWireChars d with _ | ⟨c, cs⟩
  · exact absurd hh (durationWireChars_ne_nil d)
  · simp

theorem isNegative_iff_lt (d : Duration) (h : d.validB = true) :
    d.isNegative = true ↔ d.AsGoDuration < 0 := by
  simp only [Duration.validB, Bool.and_eq_true, Bool.or_eq_true, decide_eq_true_eq] at h
  simp only [Duration.isNegative, Duration.AsGoDuration, nanosPerSecond, Bool.or_eq_true,
    decide_eq_true_eq]
  omega

theorem durationBody_split (d : Duration) (h : d.validB = true) :
    ∃ intPart frac, durationWireChars d
        = (if d.isNegative then ['-'] else []) ++ (intPart ++ '.' :: frac) ∧
      frac.length = 9 ∧ intPart ≠ [] ∧
      (∀ c ∈ intPart, c.isDigit = true) ∧ (∀ c ∈ frac, c.isDigit = true) := by
  simp only [Duration.validB, Bool.and_eq_true, Bool.or_eq_true, decide_eq_true_eq] at h
  refine ⟨natToDigits d.Seconds.natAbs, natToPaddedDigits 9 d.Nanoseconds.natAbs,
    rfl, ?_, natToDigits_ne_nil _, natToDigits_all_isDigit _,
    natToPaddedDigits_all_isDigit _ _⟩
  exact natToPaddedDigits_length (by norm_num; omega) (by norm_num)

theorem mem_ite_singleton {c : Prop} [Decidable c] {x y : String} :
    (x ∈ if c then [y] else []) ↔ (c ∧ x = y) := by
  by_cases h : c <;> simp [h]

theorem sparse_presence (r : RangeWithCount) (vw : Value) :
    ("lower" ∈ r.emittedFields ↔ r.Lower ≠ none) ∧
    ("upper" ∈ r.emittedFields ↔ r.Upper ≠ none) ∧
    ("boolValue" ∈ vw.emittedFields ↔ vw.BoolValue ≠ none) ∧
    ("intValue" ∈ vw.emittedFields ↔ vw.IntValue ≠ none) ∧
    ("uintValue" ∈ vw.emittedFields ↔ vw.UintValue ≠ none) ∧
    ("floatValue" ∈ vw.emittedFields ↔ vw.FloatValue ≠ none) ∧
    ("stringValue" ∈ vw.emittedFields ↔ vw.StringValue ≠ none) ∧
    ("distributionValue" ∈ vw.emittedFields ↔ vw.DistributionValue ≠ none) := by
  obtain ⟨rl, ru, rc⟩ := r
  obtain ⟨vk, vb, vi, vu, vf, vs, vd⟩ := vw
  refine ⟨?_, ?_, ?_, ?_, ?_, ?_, ?_, ?_⟩ <;>
    simp [RangeWithCount.emittedFields, Value.emittedFields, mem_ite_singleton,
      Option.isSome_iff_ne_none]

theorem toWire_selected (v : RpcValue) (h : v.valid) :
    (v.toWireForm.BoolValue ≠ none ↔ v.Kind = .boolKind) ∧
    (v.toWireForm.IntValue ≠ none ↔ v.Kind = .intKind) ∧
    (v.toWireForm.UintValue ≠ none ↔ v.Kind = .uintKind) ∧
    (v.toWireForm.FloatValue ≠ none ↔ v.Kind = .floatKind) ∧
    (v.toWireForm.StringValue ≠ none ↔
      (v.Kind = .stringKind ∨ v.Kind = .durationKind)) ∧
    (v.toWireForm.DistributionValue ≠ none ↔ v.Kind = .distKind) := by
  obtain ⟨k, bv, iv, uv, fv, sv, dv, distv⟩ := v
  rcases distv with _ | D <;> cases k <;> simp only [RpcValue.valid] at h <;>
    simp only [reduceCtorEq, false_or, true_or, false_and, and_true, true_and,
      false_implies, forall_const, ne_eq, not_false_eq_true, not_true_eq_false,
      true_implies, and_false] at h <;>
    simp [RpcValue.toWireForm]

/-! ## Claim theorems -/

/-- C1: for every valid dense metric m (its Value and nested distribution
satisfying the data-model invariants), converting to the sparse wire form and
back yields m: fromWireForm (toWireForm m) = ok m, applied recursively
through Value, Distribution and RangeCount. -/
theorem claim_c1 (m : RpcMetric) (h : m.valid) :
    m.toWireForm.fromWireForm = Except.ok m :=
  metric_round m h

theorem claim_c1_witness :
    (RpcMetric.toWireForm ⟨"/proc/latency", "request latency", 7,
        some ⟨.durationKind, false, 0, 0, 0, "", ⟨-1, -500000000⟩, none⟩⟩).fromWireForm
      = Except.ok ⟨"/proc/latency", "request latency", 7,
        some ⟨.durationKind, false, 0, 0, 0, "", ⟨-1, -500000000⟩, none⟩⟩ :=
  claim_c1 _ (by decide)

/-- C2 (counterexample): the sparse encoding does not omit every zero-valued
field apart from count and kind: the zero-valued min field of a Distribution
is always emitted, and so is the empty description of a Metric. -/
theorem claim_c2_counterexample :
    ("min" ∈ Distribution.emittedFields ⟨0, 0, 0, 0, 0, 0, []⟩ ∧
      "min" ≠ "count" ∧ "min" ≠ "kind") ∧
    ("description" ∈ Metric.emittedFields ⟨"", "", 0, none⟩ ∧
      "description" ≠ "count" ∧ "description" ≠ "kind") := by
  decide

/-- C2 (amended): among the sparse entities, only the pointer- and
slice-typed optional fields are presence-driven: a bucket emits lower/upper
exactly when non-nil, a Value emits each payload exactly when non-nil, a
Distribution emits ranges exactly when non-empty; count and kind are always
emitted, and so are all remaining plain-valued fields — Distribution's min,
max, average, median, sum and every Metric field — even when zero, empty or
null. -/
theorem claim_c2 (r : RangeWithCount) (d : Distribution) (v : Value) (m : Metric) :
    ("lower" ∈ r.emittedFields ↔ r.Lower ≠ none) ∧
    ("upper" ∈ r.emittedFields ↔ r.Upper ≠ none) ∧
    "count" ∈ r.emittedFields ∧
    "min" ∈ d.emittedFields ∧ "max" ∈ d.emittedFields ∧
    "average" ∈ d.emittedFields ∧ "median" ∈ d.emittedFields ∧
    "sum" ∈ d.emittedFields ∧ "count" ∈ d.emittedFields ∧
    ("ranges" ∈ d.emittedFields ↔ d.Ranges ≠ []) ∧
    "kind" ∈ v.emittedFields ∧
    ("boolValue" ∈ v.emittedFields ↔ v.BoolValue ≠ none) ∧
    ("intValue" ∈ v.emittedFields ↔ v.IntValue ≠ none) ∧
    ("uintValue" ∈ v.emittedFields ↔ v.UintValue ≠ none) ∧
    ("floatValue" ∈ v.emittedFields ↔ v.FloatValue ≠ none) ∧
    ("stringValue" ∈ v.emittedFields ↔ v.StringValue ≠ none) ∧
    ("distributionValue" ∈ v.emittedFields ↔ v.DistributionValue ≠ none) ∧
    "path" ∈ m.emittedFields ∧ "description" ∈ m.emittedFields ∧
    "unit" ∈ m.emittedFields ∧ "value" ∈ m.emittedFields := by
  have hs := sparse_presence r v
  have hranges : ("ranges" ∈ d.emittedFields ↔ d.Ranges ≠ []) := by
    obtain ⟨dmn, dmx, dav, dmd, dsm, dct, drs⟩ := d
    cases drs <;> simp [Distribution.emittedFields]
  refine ⟨hs.1, hs.2.1, ?_, ?_, ?_, ?_, ?_, ?_, ?_, hranges, ?_, hs.2.2.1, hs.2.2.2.1,
    hs.2.2.2.2.1, hs.2.2.2.2.2.1, hs.2.2.2.2.2.2.1, hs.2.2.2.2.2.2.2, ?_, ?_, ?_, ?_⟩ <;>
    simp [RangeWithCount.emittedFields, Distribution.emittedFields, Value.emittedFields,
      Metric.emittedFields]

/-- C3: looking up a metric path absent from a snapshot fails with the one
distinguished ErrMetricNotFound value, the same value for the RPC and REST
transports, which is distinct from a successful empty-list response and never
yields a metric. -/
theorem claim_c3 (l : RpcMetricList) (lj : MetricList) (p : String)
    (h : ∀ m ∈ l, m.Path ≠ p) (hj : ∀ m ∈ lj, m.Path ≠ p) :
    RpcMetricList.GetMetric l p = .error ErrMetricNotFound ∧
    MetricList.GetMetric lj p = .error ErrMetricNotFound ∧
    (∀ m, RpcMetricList.GetMetric l p ≠ .ok m) ∧
    (∀ lj2 : MetricList, (Except.error ErrMetricNotFound : Except Err MetricList)
      ≠ .ok lj2) := by
  have hf : l.find? (fun m => m.Path == p) = none :=
    List.find?_eq_none.mpr (fun m hm => by simpa using h m hm)
  have hf2 : lj.find? (fun m => m.Path == p) = none :=
    List.find?_eq_none.mpr (fun m hm => by simpa using hj m hm)
  refine ⟨?_, ?_, ?_, ?_⟩
  · unfold RpcMetricList.GetMetric
    rw [hf]
  · unfold MetricList.GetMetric
    rw [hf2]
  · intro m hc
    unfold RpcMetricList.GetMetric at hc
    rw [hf] at hc
    exact Except.noConfusion hc
  · intro lj2 hc
    exact Except.noConfusion hc

theorem claim_c3_witness :
    RpcMetricList.GetMetric [⟨"/foo", "", 0, none⟩] "/nonexistent/metric"
        = .error ErrMetricNotFound ∧
    MetricList.GetMetric [] "/nonexistent/metric" = .error ErrMetricNotFound ∧
    RpcMetricList.GetMetric [⟨"/foo", "", 0, none⟩] "/nonexistent/metric"
        ≠ .ok ⟨"/foo", "", 0, none⟩ ∧
    (Except.error ErrMetricNotFound : Except Err MetricList) ≠ .ok [] := by
  have hc := claim_c3 [⟨"/foo", "", 0, none⟩] [] "/nonexistent/metric"
    (by decide) (by decide)
  exact ⟨hc.1, hc.2.1, hc.2.2.1 _, hc.2.2.2 []⟩

/-- C4: every Duration built by NewDuration or SinceEpoch has sign-agreeing
fields (both non-negative or both non-positive, never strictly opposite
signs); in particular a span of -1500000000 ns yields Seconds = -1 and
Nanoseconds = -500000000, not Seconds = -2 with Nanoseconds = 500000000. -/
theorem claim_c4 (s t : Int) :
    ((0 ≤ (NewDuration s).Seconds ∧ 0 ≤ (NewDuration s).Nanoseconds) ∨
      ((NewDuration s).Seconds ≤ 0 ∧ (NewDuration s).Nanoseconds ≤ 0)) ∧
    ((0 ≤ (SinceEpoch t).Seconds ∧ 0 ≤ (SinceEpoch t).Nanoseconds) ∨
      ((SinceEpoch t).Seconds ≤ 0 ∧ (SinceEpoch t).Nanoseconds ≤ 0)) ∧
    NewDuration (-1500000000) = ⟨-1, -500000000⟩ :=
  ⟨newDuration_signAgree s, newDuration_signAgree t, by decide⟩

/-- C5: the Duration conversions are exact inverses at nanosecond precision:
AsGoTime (SinceEpoch t) = t for every absolute time t and
AsGoDuration (NewDuration s) = s for every span s. -/
theorem claim_c5 (t s : Int) :
    (SinceEpoch t).AsGoTime = t ∧ (NewDuration s).AsGoDuration = s :=
  ⟨newDuration_total t, newDuration_total s⟩

/-- C6: Duration's String method renders seconds, a dot, the nanosecond
magnitude zero-padded to exactly nine digits and a trailing s, with a leading
minus sign exactly when the duration is negative and never a bare minus for a
zero duration; the Duration with Seconds = -1, Nanoseconds = -500000000
renders as "-1.500000000s". -/
theorem claim_c6 (d : Duration) (h : d.validB = true) :
    (((Duration.String d).data.head? = some '-') ↔ d.AsGoDuration < 0) ∧
    Duration.String ⟨-1, -500000000⟩ = "-1.500000000s" ∧
    Duration.String ⟨0, 0⟩ = "0.000000000s" ∧
    ∃ intPart frac, (Duration.String d).data
        = (if d.isNegative then ['-'] else []) ++ (intPart ++ '.' :: (frac ++ ['s'])) ∧
      frac.length = 9 ∧ intPart ≠ [] ∧
      (∀ c ∈ intPart, c.isDigit = true) ∧ (∀ c ∈ frac, c.isDigit = true) := by
  refine ⟨?_, by decide, by decide, ?_⟩
  · rw [string_head, durationWireChars_head]
    exact isNegative_iff_lt d h
  · obtain ⟨intPart, frac, heq, hlen, hne, hint, hfrac⟩ := durationBody_split d h
    refine ⟨intPart, frac, ?_, hlen, hne, hint, hfrac⟩
    show durationWireChars d ++ ['s'] = _
    rw [heq]
    simp

theorem claim_c6_witness :
    (((Duration.String ⟨-1, -500000000⟩).data.head? = some '-') ↔
      Duration.AsGoDuration ⟨-1, -500000000⟩ < 0) ∧
    Duration.String ⟨-1, -500000000⟩ = "-1.500000000s" ∧
    Duration.String ⟨0, 0⟩ = "0.000000000s" ∧
    ∃ intPart frac, (Duration.String ⟨-1, -500000000⟩).data
        = (if Duration.isNegative ⟨-1, -500000000⟩ then ['-'] else []) ++
          (intPart ++ '.' :: (frac ++ ['s'])) ∧
      frac.length = 9 ∧ intPart ≠ [] ∧
      (∀ c ∈ intPart, c.isDigit = true) ∧ (∀ c ∈ frac, c.isDigit = true) :=
  claim_c6 ⟨-1, -500000000⟩ (by decide)

/-- C7: a duration/time value travels in the dedicated typed Duration slot of
the dense encoding but reuses the string slot in the sparse encoding, as a
decimal-seconds string with exactly nine fractional digits, all other sparse
payload slots absent, never as a structured object. -/
theorem claim_c7 (v : RpcValue) (hk : v.Kind = .durationKind) (h : v.valid) :
    v.toWireForm.StringValue = some (durationWireString v.DurationValue) ∧
    v.toWireForm.BoolValue = none ∧ v.toWireForm.IntValue = none ∧
    v.toWireForm.UintValue = none ∧ v.toWireForm.FloatValue = none ∧
    v.toWireForm.DistributionValue = none ∧
    ∃ intPart frac, (durationWireString v.DurationValue).data
        = (if (v.DurationValue).isNegative then ['-'] else []) ++
          (intPart ++ '.' :: frac) ∧
      frac.length = 9 ∧ intPart ≠ [] ∧
      (∀ c ∈ intPart, c.isDigit = true) ∧ (∀ c ∈ frac, c.isDigit = true) := by
  have hdur : (v.DurationValue).validB = true := by
    obtain ⟨-, -, -, -, -, -, hd, -⟩ := h
    exact hd hk
  refine ⟨?_, ?_, ?_, ?_, ?_, ?_, durationBody_split _ hdur⟩ <;>
    simp [RpcValue.toWireForm, hk]

theorem claim_c7_witness :
    (RpcValue.toWireForm
        ⟨.durationKind, false, 0, 0, 0, "", ⟨-1, -500000000⟩, none⟩).StringValue
        = some (durationWireString ⟨-1, -500000000⟩) ∧
    (RpcValue.toWireForm
        ⟨.durationKind, false, 0, 0, 0, "", ⟨-1, -500000000⟩, none⟩).BoolValue = none ∧
    (RpcValue.toWireForm
        ⟨.durationKind, false, 0, 0, 0, "", ⟨-1, -500000000⟩, none⟩).IntValue = none ∧
    (RpcValue.toWireForm
        ⟨.durationKind, false, 0, 0, 0, "", ⟨-1, -500000000⟩, none⟩).UintValue = none ∧
    (RpcValue.toWireForm
        ⟨.durationKind, false, 0, 0, 0, "", ⟨-1, -500000000⟩, none⟩).FloatValue = none ∧
    (RpcValue.toWireForm
        ⟨.durationKind, false, 0, 0, 0, "", ⟨-1, -500000000⟩,
          none⟩).DistributionValue = none ∧
    ∃ intPart frac, (durationWireString ⟨-1, -500000000⟩).data
        = (if Duration.isNegative ⟨-1, -500000000⟩ then ['-'] else []) ++
          (intPart ++ '.' :: frac) ∧
      frac.length = 9 ∧ intPart ≠ [] ∧
      (∀ c ∈ intPart, c.isDigit = true) ∧ (∀ c ∈ frac, c.isDigit = true) :=
  claim_c7 ⟨.durationKind, false, 0, 0, 0, "", ⟨-1, -500000000⟩, none⟩ rfl (by decide)

theorem rangesToWireAux_getElem (n i : Nat) (rs : List RpcRangeWithCount) (j : Nat)
    (w : RangeWithCount) (h : (rangesToWireAux n i rs)[j]? = some w) :
    ∃ r, rs[j]? = some r ∧ w = r.toWireForm n (i + j) := by
  induction rs generalizing i j with
  | nil => simp [rangesToWireAux] at h
  | cons r rest ih =>
    cases j with
    | zero =>
      simp only [rangesToWireAux, List.getElem?_cons_zero, Option.some.injEq] at h
      exact ⟨r, by simp, by rw [← h, Nat.add_zero]⟩
    | succ j =>
      simp only [rangesToWireAux, List.getElem?_cons_succ] at h
      obtain ⟨r2, hr2, hw⟩ := ih (i + 1) j h
      refine ⟨r2, by simpa using hr2, ?_⟩
      rw [hw]
      congr 1
      omega

/-- C8: in the sparse encoding the first bucket of a distribution never
carries a lower bound and the last never carries an upper bound; a
single-bucket distribution carries neither and interior buckets carry both
(the dense form always populates both bound fields, which is structural
there). -/
theorem claim_c8 (rs : List RpcRangeWithCount) (i : Nat) (w : RangeWithCount)
    (h : (rangesToWireForm rs)[i]? = some w) :
    (w.Lower = none ↔ i = 0) ∧ (w.Upper = none ↔ i = rs.length - 1) := by
  rw [rangesToWireForm] at h
  have hlt : i < rs.length := by
    by_contra hge
    have hnone : (rangesToWireAux rs.length 0 rs)[i]? = none := by
      rw [List.getElem?_eq_none_iff, rangesToWireAux_length]
      omega
    rw [hnone] at h
    exact Option.noConfusion h
  obtain ⟨r, hr, hw⟩ := rangesToWireAux_getElem rs.length 0 rs i w h
  subst hw
  rw [RpcRangeWithCount.toWireForm]
  constructor
  · by_cases h0 : 0 + i = 0
    · simp only [h0, if_true, reduceIte]
      simp
      omega
    · simp only [if_neg h0]
      simp
      omega
  · by_cases hlast : 0 + i + 1 = rs.length
    · simp only [hlast, if_true, reduceIte]
      simp
      omega
    · simp only [if_neg hlast]
      simp
      omega

theorem claim_c8_witness :
    (((⟨some 5, some 10, 3⟩ : RangeWithCount).Lower = none ↔ (1 : Nat) = 0) ∧
      ((⟨some 5, some 10, 3⟩ : RangeWithCount).Upper = none ↔
        (1 : Nat) = ([(⟨0, 5, 2⟩ : RpcRangeWithCount), ⟨5, 10, 3⟩,
          ⟨10, 0, 1⟩]).length - 1)) :=
  claim_c8 [⟨0, 5, 2⟩, ⟨5, 10, 3⟩, ⟨10, 0, 1⟩] 1 ⟨some 5, some 10, 3⟩ rfl

/-- C9: in the sparse encoding a present zero value is distinguishable from
an absent field: every optional payload and bound field is emitted exactly
when present (even holding a zero value), and for a valid dense value the
wire form carries exactly the kind-selected payloads as present. -/
theorem claim_c9 (r : RangeWithCount) (vw : Value) (v : RpcValue) (h : v.valid) :
    ("lower" ∈ r.emittedFields ↔ r.Lower ≠ none) ∧
    ("upper" ∈ r.emittedFields ↔ r.Upper ≠ none) ∧
    ("boolValue" ∈ vw.emittedFields ↔ vw.BoolValue ≠ none) ∧
    ("intValue" ∈ vw.emittedFields ↔ vw.IntValue ≠ none) ∧
    ("uintValue" ∈ vw.emittedFields ↔ vw.UintValue ≠ none) ∧
    ("floatValue" ∈ vw.emittedFields ↔ vw.FloatValue ≠ none) ∧
    ("stringValue" ∈ vw.emittedFields ↔ vw.StringValue ≠ none) ∧
    ("distributionValue" ∈ vw.emittedFields ↔ vw.DistributionValue ≠ none) ∧
    (v.toWireForm.BoolValue ≠ none ↔ v.Kind = .boolKind) ∧
    (v.toWireForm.IntValue ≠ none ↔ v.Kind = .intKind) ∧
    (v.toWireForm.UintValue ≠ none ↔ v.Kind = .uintKind) ∧
    (v.toWireForm.FloatValue ≠ none ↔ v.Kind = .floatKind) ∧
    (v.toWireForm.StringValue ≠ none ↔
      (v.Kind = .stringKind ∨ v.Kind = .durationKind)) ∧
    (v.toWireForm.DistributionValue ≠ none ↔ v.Kind = .distKind) := by
  obtain ⟨h1, h2, h3, h4, h5, h6, h7, h8⟩ := sparse_presence r vw
  obtain ⟨g1, g2, g3, g4, g5, g6⟩ := toWire_selected v h
  exact ⟨h1, h2, h3, h4, h5, h6, h7, h8, g1, g2, g3, g4, g5, g6⟩

theorem claim_c9_witness :
    ("lower" ∈ RangeWithCount.emittedFields ⟨some 0, some 0, 0⟩ ↔
      (RangeWithCount.Lower ⟨some 0, some 0, 0⟩ ≠ none)) ∧
    ("upper" ∈ RangeWithCount.emittedFields ⟨some 0, some 0, 0⟩ ↔
      (RangeWithCount.Upper ⟨some 0, some 0, 0⟩ ≠ none)) ∧
    ("boolValue" ∈ Value.emittedFields
        ⟨.boolKind, some false, none, none, none, none, none⟩ ↔
      (Value.BoolValue ⟨.boolKind, some false, none, none, none, none, none⟩ ≠ none)) ∧
    ("intValue" ∈ Value.emittedFields
        ⟨.boolKind, some false, none, none, none, none, none⟩ ↔
      (Value.IntValue ⟨.boolKind, some false, none, none, none, none, none⟩ ≠ none)) ∧
    ("uintValue" ∈ Value.emittedFields
        ⟨.boolKind, some false, none, none, none, none, none⟩ ↔
      (Value.UintValue ⟨.boolKind, some false, none, none, none, none, none⟩ ≠ none)) ∧
    ("floatValue" ∈ Value.emittedFields
        ⟨.boolKind, some false, none, none, none, none, none⟩ ↔
      (Value.FloatValue ⟨.boolKind, some false, none, none, none, none, none⟩ ≠ none)) ∧
    ("stringValue" ∈ Value.emittedFields
        ⟨.boolKind, some false, none, none, none, none, none⟩ ↔
      (Value.StringValue ⟨.boolKind, some false, none, none, none, none, none⟩ ≠ none)) ∧
    ("distributionValue" ∈ Value.emittedFields
        ⟨.boolKind, some false, none, none, none, none, none⟩ ↔
      (Value.DistributionValue ⟨.boolKind, some false, none, none, none, none, none⟩
        ≠ none)) ∧
    ((RpcValue.toWireForm ⟨.boolKind, false, 0, 0, 0, "", ⟨0, 0⟩, none⟩).BoolValue
        ≠ none ↔ RpcValue.Kind ⟨.boolKind, false, 0, 0, 0, "", ⟨0, 0⟩, none⟩
        = .boolKind) ∧
    ((RpcValue.toWireForm ⟨.boolKind, false, 0, 0, 0, "", ⟨0, 0⟩, none⟩).IntValue
        ≠ none ↔ RpcValue.Kind ⟨.boolKind, false, 0, 0, 0, "", ⟨0, 0⟩, none⟩
        = .intKind) ∧
    ((RpcValue.toWireForm ⟨.boolKind, false, 0, 0, 0, "", ⟨0, 0⟩, none⟩).UintValue
        ≠ none ↔ RpcValue.Kind ⟨.boolKind, false, 0, 0, 0, "", ⟨0, 0⟩, none⟩
        = .uintKind) ∧
    ((RpcValue.toWireForm ⟨.boolKind, false, 0, 0, 0, "", ⟨0, 0⟩, none⟩).FloatValue
        ≠ none ↔ RpcValue.Kind ⟨.boolKind, false, 0, 0, 0, "", ⟨0, 0⟩, none⟩
        = .floatKind) ∧
    ((RpcValue.toWireForm ⟨.boolKind, false, 0, 0, 0, "", ⟨0, 0⟩, none⟩).StringValue
        ≠ none ↔ (RpcValue.Kind ⟨.boolKind, false, 0, 0, 0, "", ⟨0, 0⟩, none⟩
        = .stringKind ∨ RpcValue.Kind ⟨.boolKind, false, 0, 0, 0, "", ⟨0, 0⟩, none⟩
        = .durationKind)) ∧
    ((RpcValue.toWireForm
        ⟨.boolKind, false, 0, 0, 0, "", ⟨0, 0⟩, none⟩).DistributionValue
        ≠ none ↔ RpcValue.Kind ⟨.boolKind, false, 0, 0, 0, "", ⟨0, 0⟩, none⟩
        = .distKind) :=
  claim_c9 ⟨some 0, some 0, 0⟩ ⟨.boolKind, some false, none, none, none, none, none⟩
    ⟨.boolKind, false, 0, 0, 0, "", ⟨0, 0⟩, none⟩ (by decide)

/-- C10: in the dense encoding only RpcValue.DistributionValue and
RpcMetric.Value are nullable: a well-formed dense value of non-distribution
kind carries a nil DistributionValue, sparse-to-dense conversion never
allocates a distribution for a non-distribution kind, and a missing value at
the metric level stays a nil pointer through conversion. -/
theorem claim_c10 (v : RpcValue) (hv : v.valid) (hk : v.Kind ≠ .distKind)
    (vw : Value) (w : RpcValue) (hw : vw.fromWireForm = .ok w)
    (hwk : vw.Kind ≠ .distKind) (m : RpcMetric) :
    v.DistributionValue = none ∧ w.DistributionValue = none ∧
    (m.toWireForm.Value = none ↔ m.Value = none) := by
  refine ⟨?_, ?_, ?_⟩
  · rcases hd : v.DistributionValue with _ | D
    · rfl
    · obtain ⟨-, -, -, -, -, -, -, hdist⟩ := hv
      rw [hd] at hdist
      exact absurd hdist.1 hk
  · obtain ⟨k, bv, iv, uv, fv, sv, dv⟩ := vw
    cases k
    case boolKind =>
      rcases bv with _ | b
      · exact Except.noConfusion hw
      · have hq := (Except.ok.inj hw).symm
        rw [hq]
    case intKind =>
      rcases iv with _ | i
      · exact Except.noConfusion hw
      · have hq := (Except.ok.inj hw).symm
        rw [hq]
    case uintKind =>
      rcases uv with _ | u
      · exact Except.noConfusion hw
      · have hq := (Except.ok.inj hw).symm
        rw [hq]
    case floatKind =>
      rcases fv with _ | f
      · exact Except.noConfusion hw
      · have hq := (Except.ok.inj hw).symm
        rw [hq]
    case stringKind =>
      rcases sv with _ | s
      · exact Except.noConfusion hw
      · have hq := (Except.ok.inj hw).symm
        rw [hq]
    case durationKind =>
      rcases sv with _ | s
      · exact Except.noConfusion hw
      · rcases hp : parseWireDuration s with _ | d2
        · have hw2 : Value.fromWireForm ⟨.durationKind, bv, iv, uv, fv, some s, dv⟩
              = (Except.error Err.kindMismatch : Except Err RpcValue) := by
            show (match parseWireDuration s with
              | some d => Except.ok
                  (⟨.durationKind, false, 0, 0, 0, "", d, none⟩ : RpcValue)
              | none => Except.error Err.kindMismatch) = _
            rw [hp]
          rw [hw2] at hw
          exact Except.noConfusion hw
        · have hw2 : Value.fromWireForm ⟨.durationKind, bv, iv, uv, fv, some s, dv⟩
              = Except.ok (⟨.durationKind, false, 0, 0, 0, "", d2, none⟩ : RpcValue) := by
            show (match parseWireDuration s with
              | some d => Except.ok
                  (⟨.durationKind, false, 0, 0, 0, "", d, none⟩ : RpcValue)
              | none => Except.error Err.kindMismatch) = _
            rw [hp]
          rw [hw2] at hw
          have hq := (Except.ok.inj hw).symm
          rw [hq]
    case distKind => exact absurd rfl hwk
  · obtain ⟨p, desc, u, val⟩ := m
    rcases val with _ | v2 <;> simp [RpcMetric.toWireForm]

theorem claim_c10_witness :
    RpcValue.DistributionValue ⟨.boolKind, true, 0, 0, 0, "", ⟨0, 0⟩, none⟩ = none ∧
    RpcValue.DistributionValue ⟨.boolKind, true, 0, 0, 0, "", ⟨0, 0⟩, none⟩ = none ∧
    ((RpcMetric.toWireForm ⟨"/p", "", 0, none⟩).Value = none ↔
      RpcMetric.Value ⟨"/p", "", 0, none⟩ = none) :=
  claim_c10 ⟨.boolKind, true, 0, 0, 0, "", ⟨0, 0⟩, none⟩ (by decide) (by decide)
    ⟨.boolKind, some true, none, none, none, none, none⟩
    ⟨.boolKind, true, 0, 0, 0, "", ⟨0, 0⟩, none⟩ rfl (by decide) ⟨"/p", "", 0, none⟩

end Tricorder